import Mathlib

/-
Verification of the spectral table fitting engine (rgb_to_spec/python/main.py).

The script builds, per RGB gamut, a 64^3 lookup table of sigmoid-polynomial
spectral coefficients.  We shallowly embed its pure numeric kernels over ℚ
(exact arithmetic for the grid, serializer layout, loss bookkeeping and the
dark adversarial pool) and over ℝ (for transcendental pieces: the sigmoid
spectrum, the Lab transfer function and the ΔE metric), and prove the spec
claims about them.
-/

namespace RgbToSpec

/-! ### Constants (main.py lines 8-25) -/

def FIRST_EPOCHS : ℕ := 100000
def FIRST_LR : ℚ := 1 / 10000
def FIRST_BATCH : ℕ := 16384
def RGB_LOSS_SCALE : ℚ := 1
def GREEN_LOSS_SCALE : ℚ := 3
def DARK_LOSS_SCALE : ℚ := 1
def SECOND_EPOCHS : ℕ := 30000
def TABLE_SIZE : ℕ := 64

/-! ### Z-node axis (main.py lines 63-68)

`z_nodes = smoothstep(smoothstep(arange(64) / 63))`. -/

/-- Source: `smoothstep(x) = x*x*(3 - 2*x)` (main.py line 63-64). -/
def smoothstep (x : ℚ) : ℚ := x * x * (3 - 2 * x)

/-- Source: `z_nodes[i] = smoothstep(smoothstep(i / (TABLE_SIZE - 1)))` (main.py line 68). -/
def z_nodes (i : Fin TABLE_SIZE) : ℚ :=
  smoothstep (smoothstep ((i : ℚ) / ((TABLE_SIZE : ℚ) - 1)))

/-! ### Target grid (main.py lines 139-149)

For grid indices `(zi, yi, xi)`: `z = z_nodes[zi]`, `y = yi/63 * z`,
`x = xi/63 * z`, and the three major-axis target triples are
`[z,x,y]`, `[y,z,x]`, `[x,y,z]`. -/

/-- The chroma fraction `yi / (TABLE_SIZE - 1) * z` (main.py lines 141-142). -/
def gridFrac (idx : Fin TABLE_SIZE) (z : ℚ) : ℚ :=
  (idx : ℚ) / ((TABLE_SIZE : ℚ) - 1) * z

/-- Source: `rgb_target[major][zi][yi][xi]` (main.py lines 144-149): the stack of the
three cyclic placements `[z,x,y]`, `[y,z,x]`, `[x,y,z]`. -/
def rgb_target (m : Fin 3) (zi yi xi : Fin TABLE_SIZE) : Fin 3 → ℚ :=
  let z := z_nodes zi
  let y := gridFrac yi z
  let x := gridFrac xi z
  ![![z, x, y], ![y, z, x], ![x, y, z]] m

/-! ### Helper facts about smoothstep -/

lemma smoothstep_nonneg {t : ℚ} (h0 : 0 ≤ t) (h1 : t ≤ 1) : 0 ≤ smoothstep t := by
  have h3 : 0 ≤ 3 - 2 * t := by linarith
  have := mul_nonneg (mul_nonneg h0 h0) h3
  simpa [smoothstep] using this

lemma smoothstep_le_one {t : ℚ} (h0 : 0 ≤ t) : smoothstep t ≤ 1 := by
  have key : 1 - smoothstep t = (1 - t) ^ 2 * (1 + 2 * t) := by
    unfold smoothstep; ring
  nlinarith [sq_nonneg (1 - t)]

lemma smoothstep_mono {a b : ℚ} (ha : 0 ≤ a) (hab : a ≤ b) (hb : b ≤ 1) :
    smoothstep a ≤ smoothstep b := by
  have key : smoothstep b - smoothstep a
      = (b - a) * (a * (3 - 2 * a - b) + b * (3 - a - 2 * b)) := by
    unfold smoothstep; ring
  have hb0 : 0 ≤ b := le_trans ha hab
  have ha1 : a ≤ 1 := le_trans hab hb
  have h1 : 0 ≤ a * (3 - 2 * a - b) := mul_nonneg ha (by linarith)
  have h2 : 0 ≤ b * (3 - a - 2 * b) := mul_nonneg hb0 (by linarith)
  nlinarith [mul_nonneg (sub_nonneg.2 hab) (add_nonneg h1 h2)]

lemma z_arg_mem (i : Fin TABLE_SIZE) :
    0 ≤ (i : ℚ) / ((TABLE_SIZE : ℚ) - 1) ∧ (i : ℚ) / ((TABLE_SIZE : ℚ) - 1) ≤ 1 := by
  have hlt : (i : ℕ) < 64 := i.isLt
  have hle : (i : ℚ) ≤ 63 := by exact_mod_cast Nat.lt_succ_iff.mp hlt
  have h0 : (0 : ℚ) ≤ (i : ℚ) := Nat.cast_nonneg _
  have hT : ((TABLE_SIZE : ℚ) - 1) = 63 := by norm_num [TABLE_SIZE]
  rw [hT]
  refine ⟨by positivity, ?_⟩
  rw [div_le_one (by norm_num)]
  linarith

/-- Claim C4: the z-node axis is `smoothstep(smoothstep(i/63))` for i < 64; it is
monotonically non-decreasing, every value lies in [0,1], and `z_nodes 0 = 0`
and `z_nodes 63 = 1` hold exactly. -/
theorem z_nodes_spec :
    (∀ i j : Fin TABLE_SIZE, i ≤ j → z_nodes i ≤ z_nodes j) ∧
    (∀ i : Fin TABLE_SIZE, 0 ≤ z_nodes i ∧ z_nodes i ≤ 1) ∧
    z_nodes ⟨0, by norm_num [TABLE_SIZE]⟩ = 0 ∧
    z_nodes ⟨63, by norm_num [TABLE_SIZE]⟩ = 1 := by
  refine ⟨?_, ?_, ?_, ?_⟩
  · intro i j hij
    have hcast : (i : ℚ) ≤ (j : ℚ) := by exact_mod_cast (show (i : ℕ) ≤ (j : ℕ) from hij)
    have hdiv : (i : ℚ) / ((TABLE_SIZE : ℚ) - 1) ≤ (j : ℚ) / ((TABLE_SIZE : ℚ) - 1) :=
      (div_le_div_iff_of_pos_right (by norm_num [TABLE_SIZE])).mpr hcast
    obtain ⟨hi0, hi1⟩ := z_arg_mem i
    obtain ⟨hj0, hj1⟩ := z_arg_mem j
    have h1 : smoothstep ((i : ℚ) / ((TABLE_SIZE : ℚ) - 1))
        ≤ smoothstep ((j : ℚ) / ((TABLE_SIZE : ℚ) - 1)) := smoothstep_mono hi0 hdiv hj1
    exact smoothstep_mono (smoothstep_nonneg hi0 hi1) h1
      (smoothstep_le_one hj0)
  · intro i
    obtain ⟨hi0, hi1⟩ := z_arg_mem i
    have h0 := smoothstep_nonneg hi0 hi1
    have h1 := smoothstep_le_one hi0
    exact ⟨smoothstep_nonneg h0 h1, smoothstep_le_one h0⟩
  · norm_num [z_nodes, smoothstep, TABLE_SIZE]
  · norm_num [z_nodes, smoothstep, TABLE_SIZE]

/-- Witness for C4 at concrete indices. -/
theorem z_nodes_spec_witness :
    z_nodes ⟨2, by norm_num [TABLE_SIZE]⟩ ≤ z_nodes ⟨5, by norm_num [TABLE_SIZE]⟩ :=
  z_nodes_spec.1 ⟨2, by norm_num [TABLE_SIZE]⟩ ⟨5, by norm_num [TABLE_SIZE]⟩ (by decide)

lemma rgb_target_off_axis_zero (m c : Fin 3) (hmc : m ≠ c) :
    rgb_target m ⟨1, by norm_num [TABLE_SIZE]⟩ ⟨0, by norm_num [TABLE_SIZE]⟩
      ⟨0, by norm_num [TABLE_SIZE]⟩ c = 0 := by
  fin_cases m <;> fin_cases c <;>
    simp_all [rgb_target, gridFrac, TABLE_SIZE]

lemma z_nodes_one_ne_zero : z_nodes ⟨1, by norm_num [TABLE_SIZE]⟩ ≠ 0 := by
  norm_num [z_nodes, smoothstep, TABLE_SIZE]

/-- Claim C2: for every grid index triple, with `z = z_nodes zi`,
`y = yi/63·z`, `x = xi/63·z`, the three major-axis targets are the cyclic
placements `[z,x,y]`, `[y,z,x]`, `[x,y,z]`, and each channel plays the
dominant/z role in exactly one major-axis permutation. -/
theorem rgb_target_spec :
    (∀ zi yi xi : Fin TABLE_SIZE,
      rgb_target 0 zi yi xi
          = ![z_nodes zi, gridFrac xi (z_nodes zi), gridFrac yi (z_nodes zi)] ∧
      rgb_target 1 zi yi xi
          = ![gridFrac yi (z_nodes zi), z_nodes zi, gridFrac xi (z_nodes zi)] ∧
      rgb_target 2 zi yi xi
          = ![gridFrac xi (z_nodes zi), gridFrac yi (z_nodes zi), z_nodes zi]) ∧
    (∀ c : Fin 3, ∃! m : Fin 3,
      ∀ zi yi xi : Fin TABLE_SIZE, rgb_target m zi yi xi c = z_nodes zi) := by
  constructor
  · intro zi yi xi
    exact ⟨rfl, rfl, rfl⟩
  · intro c
    refine ⟨c, ?_, ?_⟩
    · intro zi yi xi
      fin_cases c <;> rfl
    · intro m hm
      by_contra hmc
      have h0 := rgb_target_off_axis_zero m c hmc
      have h1 := hm ⟨1, by norm_num [TABLE_SIZE]⟩ ⟨0, by norm_num [TABLE_SIZE]⟩
        ⟨0, by norm_num [TABLE_SIZE]⟩
      exact z_nodes_one_ne_zero (h1 ▸ h0)

/-- Witness for C2 at a concrete grid cell. -/
theorem rgb_target_spec_witness :
    rgb_target 1 ⟨1, by norm_num [TABLE_SIZE]⟩ ⟨2, by norm_num [TABLE_SIZE]⟩
        ⟨3, by norm_num [TABLE_SIZE]⟩
      = ![gridFrac ⟨2, by norm_num [TABLE_SIZE]⟩ (z_nodes ⟨1, by norm_num [TABLE_SIZE]⟩),
          z_nodes ⟨1, by norm_num [TABLE_SIZE]⟩,
          gridFrac ⟨3, by norm_num [TABLE_SIZE]⟩ (z_nodes ⟨1, by norm_num [TABLE_SIZE]⟩)] :=
  (rgb_target_spec.1 _ _ _).2.1

/-! ### Illuminant normalization (main.py lines 43-47)

`y_d65 = (d65_values * y_bar).sum() * step`, `k = 1 / y_d65`,
`d65_norm = d65_values * k`.  The D65 samples themselves are external data,
so we embed the normalization over arbitrary sample sequences. -/

/-- The luminance integral `(ill * ybar).sum() * step` (main.py line 45). -/
def lumIntegral {n : ℕ} (ill ybar : Fin n → ℚ) (step : ℚ) : ℚ :=
  (∑ i, ill i * ybar i) * step

/-- Source: `d65_norm = d65_values * k` with `k = 1 / y_d65` (main.py lines 46-47). -/
def d65_norm_seq {n : ℕ} (ill ybar : Fin n → ℚ) (step : ℚ) : Fin n → ℚ :=
  fun i => ill i * (1 / lumIntegral ill ybar step)

/-- Claim C7: the illuminant is scaled by the single constant
`k = 1/(∑(ill·ȳ)·step)`, after which `∑(ill_norm·ȳ)·step = 1` (exactly, in
exact arithmetic). -/
theorem d65_norm_spec {n : ℕ} (ill ybar : Fin n → ℚ) (step : ℚ)
    (h : lumIntegral ill ybar step ≠ 0) :
    lumIntegral (d65_norm_seq ill ybar step) ybar step = 1 := by
  simp only [d65_norm_seq, lumIntegral] at h ⊢
  have key : ∀ c : ℚ, (∑ i, ill i * c * ybar i) = (∑ i, ill i * ybar i) * c := by
    intro c
    rw [Finset.sum_mul]
    exact Finset.sum_congr rfl fun i _ => by ring
  rw [key]
  have h2 : (∑ i, ill i * ybar i) ≠ 0 := left_ne_zero_of_mul h
  have h3 : step ≠ 0 := right_ne_zero_of_mul h
  field_simp

/-- Witness for C7 on a one-sample spectrum. -/
theorem d65_norm_spec_witness :
    lumIntegral (d65_norm_seq (fun _ : Fin 1 => 2) (fun _ => 1) 1) (fun _ => 1) 1 = 1 :=
  d65_norm_spec (fun _ : Fin 1 => 2) (fun _ => 1) 1
    (by norm_num [lumIntegral, Fin.sum_univ_one])

/-! ### Dark adversarial pool (main.py lines 119-123)

`num_zeros = torch.randint(0, 3, ...)` draws a value in {0, 1, 2};
`rand_indices = argsort(rand, dim=1)` is (a.s.) a random permutation `σ` of
the three channels; `mask[j] = (σ j >= num_zeros)`; and the pool row is
`rand * 0.3 * mask` with `rand` uniform in [0,1).  One pool row is modelled
by the draws `nz` (of randint), `σ` (the argsort result, a bijection) and
`r` (the three uniform draws). -/

/-- Source: `mask = (rand_indices >= num_zeros)` cast to float (main.py line 122). -/
def darkMask (nz : Fin 3) (σ : Fin 3 → Fin 3) : Fin 3 → ℚ :=
  fun j => if (nz : ℕ) ≤ (σ j : ℕ) then 1 else 0

/-- One row of `rand_dark_pool = rand * 0.3 * mask` (main.py line 123). -/
def rand_dark_sample (nz : Fin 3) (σ : Fin 3 → Fin 3) (r : Fin 3 → ℚ) : Fin 3 → ℚ :=
  fun j => r j * (3 / 10) * darkMask nz σ j

/-- The set of channels the mask forces to exactly zero. -/
def zeroForced (nz : Fin 3) (σ : Fin 3 → Fin 3) : Fin 3 → Bool :=
  fun j => decide ((σ j : ℕ) < (nz : ℕ))

/-- A zero-channel pattern is realizable if some draw of `num_zeros` and some
argsort permutation produce it. -/
def maskRealizable (m : Fin 3 → Bool) : Prop :=
  ∃ nz : Fin 3, ∃ σ : Fin 3 → Fin 3, Function.Bijective σ ∧ zeroForced nz σ = m

/-- Claim C6 counterexample: the all-three-channels-forced-to-zero pattern is
not realizable by any draw, because `torch.randint(0, 3, ...)` excludes 3. -/
theorem rand_dark_all_zero_unrealizable : ¬ maskRealizable (fun _ => true) := by
  simp only [maskRealizable]
  decide

/-- Claim C6 amended: every dark-pool sample channel lies in [0, 0.3);
mask-flagged channels are exactly zero; the zero-forced subset has size
`num_zeros ∈ {0,1,2}`; and the realizable zero-subsets are exactly the
proper subsets of the channel set — never all three channels at once. -/
theorem rand_dark_sample_spec :
    (∀ (nz : Fin 3) (σ : Fin 3 → Fin 3) (r : Fin 3 → ℚ),
      (∀ j, 0 ≤ r j ∧ r j < 1) →
      ∀ j, (0 ≤ rand_dark_sample nz σ r j ∧ rand_dark_sample nz σ r j < 3 / 10) ∧
        (zeroForced nz σ j = true → rand_dark_sample nz σ r j = 0)) ∧
    (∀ (nz : Fin 3) (σ : Fin 3 → Fin 3), Function.Bijective σ →
      (Finset.univ.filter fun j => zeroForced nz σ j = true).card = (nz : ℕ)) ∧
    (∀ m : Fin 3 → Bool, maskRealizable m ↔ m ≠ fun _ => true) := by
  refine ⟨?_, by decide, by simp only [maskRealizable]; decide⟩
  intro nz σ r hr j
  obtain ⟨hr0, hr1⟩ := hr j
  unfold rand_dark_sample darkMask zeroForced
  by_cases hcase : (nz : ℕ) ≤ (σ j : ℕ)
  · simp only [hcase, if_true]
    refine ⟨⟨by nlinarith, by nlinarith⟩, ?_⟩
    intro habs
    simp only [decide_eq_true_eq] at habs
    omega
  · simp only [hcase, if_false]
    norm_num

/-- Witness for C6 (amended) on a concrete draw. -/
theorem rand_dark_sample_spec_witness :
    0 ≤ rand_dark_sample 1 id (fun _ => 1 / 2) 0 ∧
      rand_dark_sample 1 id (fun _ => 1 / 2) 0 < 3 / 10 :=
  (rand_dark_sample_spec.1 1 id (fun _ => 1 / 2) (fun _ => by norm_num) 0).1

/-! ### Stage A loop structure (main.py lines 199-237)

The loop `for i in range(1, FIRST_EPOCHS + 1)` runs three loss blocks in
order (general rgb, green, dark), each consisting of a backward pass
followed immediately by `opt.step()`, and then a single `scheduler.step()`.
We record the observable optimizer operations of the body as a trace. -/

/-- One observable Stage-A optimizer operation: `gradUpdate j` is the
backward pass of the j-th loss (0 = general, 1 = green, 2 = dark),
`optStep` is `opt.step()`, `schedStep` is `scheduler.step()`. -/
inductive StageAEv : Type
  | gradUpdate (lossIdx : Fin 3)
  | optStep
  | schedStep
  deriving DecidableEq

/-- The event list of one Stage-A iteration body (main.py lines 210-237). -/
def stageAIter : List StageAEv :=
  [.gradUpdate 0, .optStep, .gradUpdate 1, .optStep, .gradUpdate 2, .optStep, .schedStep]

/-- The trace of `n` Stage-A iterations. -/
def stageATrace : ℕ → List StageAEv
  | 0 => []
  | n + 1 => stageAIter ++ stageATrace n

lemma stageATrace_length (n : ℕ) : (stageATrace n).length = 7 * n := by
  induction n with
  | zero => rfl
  | succ n ih =>
    simp only [stageATrace, List.length_append, ih]
    simp [stageAIter]
    omega

lemma stageATrace_slice {n k : ℕ} (hk : k < n) :
    ((stageATrace n).drop (7 * k)).take 7 = stageAIter := by
  induction n generalizing k with
  | zero => omega
  | succ n ih =>
    cases k with
    | zero =>
      have h7 : stageAIter.length = 7 := rfl
      simp only [stageATrace, Nat.mul_zero, List.drop_zero]
      rw [← h7, List.take_left]
    | succ k =>
      have h7 : 7 * (k + 1) = stageAIter.length + 7 * k := by
        simp [stageAIter]; ring
      rw [stageATrace, h7, List.drop_append]
      exact ih (by omega)

lemma stageATrace_count_sched (n : ℕ) :
    (stageATrace n).count StageAEv.schedStep = n := by
  induction n with
  | zero => rfl
  | succ n ih =>
    rw [stageATrace, List.count_append, ih]
    have h1 : List.count StageAEv.schedStep stageAIter = 1 := by decide
    omega

/-! ### Stage A losses (main.py lines 210-234) -/

/-- Source: `(pred - target).pow(2).mean()` over a batch of RGB rows. -/
def mseMean {B : ℕ} (pred target : Fin B → Fin 3 → ℚ) : ℚ :=
  (∑ i, ∑ c, (pred i c - target i c) ^ 2) / ((B : ℚ) * 3)

/-- Source: `rgb_loss = (pred_rgb - input_rgb).pow(2).mean() * RGB_LOSS_SCALE`
(main.py line 211). -/
def rgb_loss {B : ℕ} (pred input : Fin B → Fin 3 → ℚ) : ℚ :=
  mseMean pred input * RGB_LOSS_SCALE

/-- Source: `green_loss = (pred_green - input_green).pow(2).mean() * GREEN_LOSS_SCALE`
(main.py line 220). -/
def green_loss {B : ℕ} (pred input : Fin B → Fin 3 → ℚ) : ℚ :=
  mseMean pred input * GREEN_LOSS_SCALE

/-- Source: `dark_loss = (pred_dark - input_dark).pow(2).mean() * DARK_LOSS_SCALE`
(main.py line 229). -/
def dark_loss {B : ℕ} (pred input : Fin B → Fin 3 → ℚ) : ℚ :=
  mseMean pred input * DARK_LOSS_SCALE

/-- Source: `reg_loss = log_scale.exp().pow(2).sum() * 1e-5` (main.py lines 212, 221,
230), expressed over the exponentiated scale vector `s = exp(log_scale)`. -/
def reg_loss (s : Fin 3 → ℚ) : ℚ := (∑ i, s i ^ 2) * (1 / 100000)

/-- The loss whose gradient the j-th update of a Stage-A iteration applies,
in source order: general rgb, then green, then dark, each plus the scale
regularization (main.py lines 210-234). -/
def stageALoss {B : ℕ} (j : Fin 3) (pred target : Fin B → Fin 3 → ℚ)
    (s : Fin 3 → ℚ) : ℚ :=
  ![rgb_loss pred target + reg_loss s,
    green_loss pred target + reg_loss s,
    dark_loss pred target + reg_loss s] j

/-- Closed form of torch `CosineAnnealingLR` with its default `eta_min = 0`
(constructed at main.py line 197 with `T_max = FIRST_EPOCHS`): the learning
rate after t schedule steps is `base * (1 + cos(π t / T)) / 2`. -/
noncomputable def cosineAnnealingLR (base : ℝ) (T t : ℕ) : ℝ :=
  base * (1 + Real.cos (Real.pi * t / T)) / 2

/-- The Stage-A learning-rate schedule: cosine annealing over the whole
stage, `T_max = FIRST_EPOCHS` (main.py line 197). -/
noncomputable def stageALR (t : ℕ) : ℝ :=
  cosineAnnealingLR ((FIRST_LR : ℚ) : ℝ) FIRST_EPOCHS t

/-- Claim C3: every Stage-A iteration performs exactly three gradient
updates in the order general, green, dark, each the independently weighted
mean-squared-error loss (weights 1, 3, 1) plus the scale regularization and
each immediately followed by an `opt.step()`; the learning-rate schedule is
cosine-annealed over the whole stage (full base rate at step 0, annealed to
exactly 0 at step `FIRST_EPOCHS`), advanced once per iteration; and the
stage runs a fixed budget of `FIRST_EPOCHS` iterations with no early
stopping. -/
theorem stageA_iteration_structure :
    (∀ k, k < FIRST_EPOCHS →
      ((stageATrace FIRST_EPOCHS).drop (7 * k)).take 7
        = [.gradUpdate 0, .optStep, .gradUpdate 1, .optStep,
           .gradUpdate 2, .optStep, .schedStep]) ∧
    (stageATrace FIRST_EPOCHS).length = 7 * FIRST_EPOCHS ∧
    (stageATrace FIRST_EPOCHS).count StageAEv.schedStep = FIRST_EPOCHS ∧
    (∀ (B : ℕ) (pred target : Fin B → Fin 3 → ℚ) (s : Fin 3 → ℚ) (j : Fin 3),
      stageALoss j pred target s = mseMean pred target * ![1, 3, 1] j + reg_loss s) ∧
    stageALR 0 = ((FIRST_LR : ℚ) : ℝ) ∧ stageALR FIRST_EPOCHS = 0 := by
  refine ⟨fun k hk => stageATrace_slice hk, stageATrace_length _,
    stageATrace_count_sched _, ?_, ?_, ?_⟩
  · intro B pred target s j
    fin_cases j <;>
      simp [stageALoss, rgb_loss, green_loss, dark_loss,
        RGB_LOSS_SCALE, GREEN_LOSS_SCALE, DARK_LOSS_SCALE]
  · simp [stageALR, cosineAnnealingLR]
    ring
  · have hT : ((FIRST_EPOCHS : ℕ) : ℝ) ≠ 0 := by norm_num [FIRST_EPOCHS]
    have harg : Real.pi * (FIRST_EPOCHS : ℕ) / (FIRST_EPOCHS : ℕ) = Real.pi := by
      field_simp
    simp [stageALR, cosineAnnealingLR, harg, Real.cos_pi]

/-- Witness for C3 at the first iteration. -/
theorem stageA_iteration_structure_witness :
    ((stageATrace FIRST_EPOCHS).drop (7 * 0)).take 7
      = [.gradUpdate 0, .optStep, .gradUpdate 1, .optStep,
         .gradUpdate 2, .optStep, .schedStep] :=
  stageA_iteration_structure.1 0 (by norm_num [FIRST_EPOCHS])

/-! ### Table serializer (main.py lines 269-281)

Both the periodic checkpoint (`epoch % 2500 == 0`, lines 269-274) and the
unconditional final write (lines 277-281) open the output path with
`open("wb")` — truncating any existing file, so the resulting file is
exactly the stream written — and emit
`z_nodes.astype("<f4").tofile(f)` followed by
`decode(coeff_raw).astype("<f4").ravel().tofile(f)`.  `ravel()` of the
C-contiguous `[3][64][64][64][3]` tensor enumerates entries with the major
axis slowest-varying and the coefficient index fastest-varying.  The IEEE
754 little-endian bit layout of one float32 is abstracted as a codec `enc`
producing 4 bytes per value. -/

/-- Source: `ravel()` of the C-contiguous `[3][64][64][64][3]` coefficient tensor. -/
def ravelCoeff
    (coeff : Fin 3 → Fin TABLE_SIZE → Fin TABLE_SIZE → Fin TABLE_SIZE → Fin 3 → ℚ) :
    List ℚ :=
  (List.finRange 3).flatMap fun m =>
    (List.finRange TABLE_SIZE).flatMap fun zi =>
      (List.finRange TABLE_SIZE).flatMap fun yi =>
        (List.finRange TABLE_SIZE).flatMap fun xi =>
          (List.finRange 3).map fun c => coeff m zi yi xi c

/-- The float32-value stream of one table write: the 64 z-nodes followed
immediately by the ravelled coefficients (main.py lines 271-273, 278-280). -/
def tableFloats (z : Fin TABLE_SIZE → ℚ)
    (coeff : Fin 3 → Fin TABLE_SIZE → Fin TABLE_SIZE → Fin TABLE_SIZE → Fin 3 → ℚ) :
    List ℚ :=
  (List.finRange TABLE_SIZE).map z ++ ravelCoeff coeff

/-- The byte stream of one table write, `enc` being the 4-byte little-endian
float32 codec. -/
def tableBytes (enc : ℚ → List ℕ) (z : Fin TABLE_SIZE → ℚ)
    (coeff : Fin 3 → Fin TABLE_SIZE → Fin TABLE_SIZE → Fin TABLE_SIZE → Fin 3 → ℚ) :
    List ℕ :=
  (tableFloats z coeff).flatMap enc

lemma length_flatMap_const {α β : Type} (l : List α) (g : α → List β) (L : ℕ)
    (h : ∀ a, (g a).length = L) : (l.flatMap g).length = l.length * L := by
  induction l with
  | nil => simp
  | cons a t ih =>
    simp only [List.flatMap_cons, List.length_append, h, ih, List.length_cons]
    ring

lemma getElem?_flatMap_const {α β : Type} {l : List α} {g : α → List β} {L : ℕ}
    (h : ∀ a, (g a).length = L) {i j : ℕ} (hj : j < L) {a : α}
    (ha : l[i]? = some a) :
    (l.flatMap g)[L * i + j]? = (g a)[j]? := by
  induction l generalizing i with
  | nil => simp at ha
  | cons b t ih =>
    cases i with
    | zero =>
      have hb : b = a := by simpa using ha
      subst hb
      simp only [Nat.mul_zero, Nat.zero_add, List.flatMap_cons]
      exact List.getElem?_append_left (by rw [h b]; exact hj)
    | succ i =>
      simp only [List.getElem?_cons_succ] at ha
      have harr : L * (i + 1) + j = (g b).length + (L * i + j) := by rw [h b]; ring
      rw [List.flatMap_cons, harr, List.getElem?_append_right (Nat.le_add_right _ _)]
      rw [Nat.add_sub_cancel_left]
      exact ih ha

lemma getElem?_finRange {n i : ℕ} (hi : i < n) :
    (List.finRange n)[i]? = some ⟨i, hi⟩ := by
  have hlen : i < (List.finRange n).length := by
    rw [List.length_finRange]; exact hi
  rw [List.getElem?_eq_getElem hlen, List.getElem_finRange]
  rfl

lemma coeff_len_c
    (coeff : Fin 3 → Fin TABLE_SIZE → Fin TABLE_SIZE → Fin TABLE_SIZE → Fin 3 → ℚ)
    (m : Fin 3) (zi yi xi : Fin TABLE_SIZE) :
    ((List.finRange 3).map fun c => coeff m zi yi xi c).length = 3 := by
  simp

lemma coeff_len_xi
    (coeff : Fin 3 → Fin TABLE_SIZE → Fin TABLE_SIZE → Fin TABLE_SIZE → Fin 3 → ℚ)
    (m : Fin 3) (zi yi : Fin TABLE_SIZE) :
    ((List.finRange TABLE_SIZE).flatMap fun xi =>
      (List.finRange 3).map fun c => coeff m zi yi xi c).length = 192 := by
  rw [length_flatMap_const _ _ 3 (coeff_len_c coeff m zi yi), List.length_finRange]
  decide

lemma coeff_len_yi
    (coeff : Fin 3 → Fin TABLE_SIZE → Fin TABLE_SIZE → Fin TABLE_SIZE → Fin 3 → ℚ)
    (m : Fin 3) (zi : Fin TABLE_SIZE) :
    ((List.finRange TABLE_SIZE).flatMap fun yi =>
      (List.finRange TABLE_SIZE).flatMap fun xi =>
        (List.finRange 3).map fun c => coeff m zi yi xi c).length = 12288 := by
  rw [length_flatMap_const _ _ 192 (coeff_len_xi coeff m zi), List.length_finRange]
  decide

lemma coeff_len_zi
    (coeff : Fin 3 → Fin TABLE_SIZE → Fin TABLE_SIZE → Fin TABLE_SIZE → Fin 3 → ℚ)
    (m : Fin 3) :
    ((List.finRange TABLE_SIZE).flatMap fun zi =>
      (List.finRange TABLE_SIZE).flatMap fun yi =>
        (List.finRange TABLE_SIZE).flatMap fun xi =>
          (List.finRange 3).map fun c => coeff m zi yi xi c).length = 786432 := by
  rw [length_flatMap_const _ _ 12288 (coeff_len_yi coeff m), List.length_finRange]
  decide

lemma ravelCoeff_length
    (coeff : Fin 3 → Fin TABLE_SIZE → Fin TABLE_SIZE → Fin TABLE_SIZE → Fin 3 → ℚ) :
    (ravelCoeff coeff).length = 2359296 := by
  unfold ravelCoeff
  rw [length_flatMap_const _ _ 786432 (coeff_len_zi coeff), List.length_finRange]

lemma ravelCoeff_getElem
    (coeff : Fin 3 → Fin TABLE_SIZE → Fin TABLE_SIZE → Fin TABLE_SIZE → Fin 3 → ℚ)
    (m : Fin 3) (zi yi xi : Fin TABLE_SIZE) (c : Fin 3) :
    (ravelCoeff coeff)[((((m : ℕ) * 64 + (zi : ℕ)) * 64 + (yi : ℕ)) * 64
        + (xi : ℕ)) * 3 + (c : ℕ)]? = some (coeff m zi yi xi c) := by
  have hzi : (zi : ℕ) < 64 := zi.isLt
  have hyi : (yi : ℕ) < 64 := yi.isLt
  have hxi : (xi : ℕ) < 64 := xi.isLt
  have hc : (c : ℕ) < 3 := c.isLt
  have harith : ((((m : ℕ) * 64 + (zi : ℕ)) * 64 + (yi : ℕ)) * 64
        + (xi : ℕ)) * 3 + (c : ℕ)
      = 786432 * (m : ℕ)
        + (12288 * (zi : ℕ) + (192 * (yi : ℕ) + (3 * (xi : ℕ) + (c : ℕ)))) := by
    ring
  simp only [harith]
  unfold ravelCoeff
  rw [getElem?_flatMap_const (coeff_len_zi coeff) (by omega) (getElem?_finRange m.isLt)]
  rw [getElem?_flatMap_const (coeff_len_yi coeff _) (by omega) (getElem?_finRange zi.isLt)]
  rw [getElem?_flatMap_const (coeff_len_xi coeff _ _) (by omega) (getElem?_finRange yi.isLt)]
  rw [getElem?_flatMap_const (coeff_len_c coeff _ _ _) (by omega) (getElem?_finRange xi.isLt)]
  rw [List.getElem?_map, getElem?_finRange c.isLt]
  simp [Fin.eta]

/-- Claim C1: every table write (periodic checkpoint and unconditional final
write alike, both via `open("wb")`, which truncates) emits exactly the 64
z-node float32 values followed immediately by the `[3][64][64][64][3]`
coefficient tensor in row-major order — major axis slowest-varying,
coefficient index fastest-varying — so with 4 bytes per float32 value the
file is exactly 256 + 9437184 = 9437440 bytes. -/
theorem table_write_layout (enc : ℚ → List ℕ) (z : Fin TABLE_SIZE → ℚ)
    (coeff : Fin 3 → Fin TABLE_SIZE → Fin TABLE_SIZE → Fin TABLE_SIZE → Fin 3 → ℚ)
    (henc : ∀ v, (enc v).length = 4) :
    (tableBytes enc z coeff).length = 9437440 ∧
    (tableFloats z coeff).length = 2359360 ∧
    (∀ i : Fin TABLE_SIZE, (tableFloats z coeff)[(i : ℕ)]? = some (z i)) ∧
    (∀ (m : Fin 3) (zi yi xi : Fin TABLE_SIZE) (c : Fin 3),
      (tableFloats z coeff)[64 + (((((m : ℕ) * 64 + (zi : ℕ)) * 64 + (yi : ℕ)) * 64
          + (xi : ℕ)) * 3 + (c : ℕ))]? = some (coeff m zi yi xi c)) := by
  have hfl : (tableFloats z coeff).length = 2359360 := by
    unfold tableFloats
    rw [List.length_append, List.length_map, List.length_finRange, ravelCoeff_length]
    decide
  refine ⟨?_, hfl, ?_, ?_⟩
  · unfold tableBytes
    rw [length_flatMap_const _ _ 4 henc, hfl]
  · intro i
    unfold tableFloats
    rw [List.getElem?_append_left
      (by rw [List.length_map, List.length_finRange]; exact i.isLt)]
    rw [List.getElem?_map, getElem?_finRange i.isLt]
    simp [Fin.eta]
  · intro m zi yi xi c
    unfold tableFloats
    have hzlen : ((List.finRange TABLE_SIZE).map z).length = 64 := by
      simp [TABLE_SIZE]
    rw [List.getElem?_append_right (by rw [hzlen]; omega)]
    rw [hzlen, Nat.add_sub_cancel_left]
    exact ravelCoeff_getElem coeff m zi yi xi c

/-- Witness for C1 with a concrete codec and table. -/
theorem table_write_layout_witness :
    (tableBytes (fun _ => [0, 0, 0, 0]) (fun _ => 0) (fun _ _ _ _ _ => 0)).length
      = 9437440 :=
  (table_write_layout (fun _ => [0, 0, 0, 0]) (fun _ => 0) (fun _ _ _ _ _ => 0)
    (fun _ => rfl)).1

/-! ### Spectral model, Lab transform and ΔE (main.py lines 83-103, 165-177)

These kernels use transcendental functions (`exp`, cube root, `sqrt`), so
they are embedded over ℝ.  The CMFS and illuminant samples are external
data and enter as arbitrary sequences. -/

/-- Source: `torch.sigmoid(x) = 1 / (1 + exp(-x))`. -/
noncomputable def sigmoid (x : ℝ) : ℝ := 1 / (1 + Real.exp (-x))

/-- The spectral reflectance model at normalized wavelength position `t`:
`spec = torch.sigmoid(a * wavelength_norm2 + b * wavelength_norm + c0)`
(main.py line 168). -/
noncomputable def spec (a b c0 t : ℝ) : ℝ := sigmoid (a * t ^ 2 + b * t + c0)

/-- Claim C5: for every coefficient triple `(a, b, c)` and every normalized
wavelength position `t`, the reflectance `sigmoid(a·t² + b·t + c)` lies
strictly in the open interval (0,1); the definition applies no clamping. -/
theorem spec_bounds (a b c0 t : ℝ) : 0 < spec a b c0 t ∧ spec a b c0 t < 1 := by
  unfold spec sigmoid
  have hexp : 0 < Real.exp (-(a * t ^ 2 + b * t + c0)) := Real.exp_pos _
  constructor
  · positivity
  · rw [div_lt_one (by positivity)]
    linarith

/-- Source: `torch.matmul(v, M.T)` for one row vector: component i is
`∑ j, v j * M i j` (main.py lines 99-100, 175). -/
noncomputable def matmulT (v : Fin 3 → ℝ) (M : Fin 3 → Fin 3 → ℝ) : Fin 3 → ℝ :=
  fun i => ∑ j, v j * M i j

/-- Source: `spectrum_xyz` (main.py lines 165-172): reflectance times CMFS channel
times normalized illuminant, summed over wavelength, times the step. -/
noncomputable def spectrum_xyz {nW : ℕ} (x_bar y_bar z_bar d65n wnorm : Fin nW → ℝ)
    (step : ℝ) (a b c0 : ℝ) : Fin 3 → ℝ :=
  ![(∑ i, spec a b c0 (wnorm i) * x_bar i * d65n i) * step,
    (∑ i, spec a b c0 (wnorm i) * y_bar i * d65n i) * step,
    (∑ i, spec a b c0 (wnorm i) * z_bar i * d65n i) * step]

/-- Source: `rgb_from_coeff` (main.py lines 174-177): the XYZ→RGB transform followed
by `torch.max(rgb, zeros)`. -/
noncomputable def rgb_from_coeff {nW : ℕ} (x_bar y_bar z_bar d65n wnorm : Fin nW → ℝ)
    (step : ℝ) (m_xyz2rgb : Fin 3 → Fin 3 → ℝ) (a b c0 : ℝ) : Fin 3 → ℝ :=
  fun i =>
    max (matmulT (spectrum_xyz x_bar y_bar z_bar d65n wnorm step a b c0) m_xyz2rgb i) 0

/-- Claim C9: for every coefficient triple, every component of the RGB value
produced by the coefficient-to-RGB pipeline is clamped non-negative after
the matrix transform. -/
theorem rgb_from_coeff_nonneg {nW : ℕ} (x_bar y_bar z_bar d65n wnorm : Fin nW → ℝ)
    (step : ℝ) (m_xyz2rgb : Fin 3 → Fin 3 → ℝ) (a b c0 : ℝ) (i : Fin 3) :
    0 ≤ rgb_from_coeff x_bar y_bar z_bar d65n wnorm step m_xyz2rgb a b c0 i :=
  le_max_right _ _

/-- Source: `delta = 6/29` (main.py line 83). -/
noncomputable def delta : ℝ := 6 / 29

/-- Source: `d_sq = delta ** 2` (main.py line 84). -/
noncomputable def d_sq : ℝ := delta ^ 2

/-- Source: `d_cb = delta ** 3` (main.py line 85). -/
noncomputable def d_cb : ℝ := delta ^ 3

/-- Source: `signed_cbrt(t) = sign(t) * |t| ** (1/3)` (main.py line 87): the cube
root is only applied to the absolute value, extended by the sign. -/
noncomputable def signed_cbrt (t : ℝ) : ℝ := Real.sign t * |t| ^ ((1 : ℝ) / 3)

/-- The CIE transfer function
`f(t) = where(t > d_cb, signed_cbrt(t), t / (3 * d_sq) + 4/29)`
(main.py line 91).  Note `torch.where` evaluates both branches; in the
embedding only the selected branch contributes, and `signed_cbrt` is total
(its power has the non-negative base `|t|`). -/
noncomputable def lab_f (t : ℝ) : ℝ :=
  if t > d_cb then signed_cbrt t else t / (3 * d_sq) + 4 / 29

/-- Source: `xyz_to_lab` (main.py lines 89-96). -/
noncomputable def xyz_to_lab (xyz white_xyz : Fin 3 → ℝ) : Fin 3 → ℝ :=
  let fx := lab_f (xyz 0 / white_xyz 0)
  let fy := lab_f (xyz 1 / white_xyz 1)
  let fz := lab_f (xyz 2 / white_xyz 2)
  ![116 * fy - 16, 500 * (fx - fy), 200 * (fy - fz)]

/-- Source: `delta_e` (main.py lines 98-103): both RGB rows go through the RGB→XYZ
matrix and `xyz_to_lab`, and the result is the Euclidean norm of the Lab
difference. -/
noncomputable def delta_e (rgb_pred rgb_ref : Fin 3 → ℝ)
    (m_rgb_to_xyz : Fin 3 → Fin 3 → ℝ) (white_xyz : Fin 3 → ℝ) : ℝ :=
  Real.sqrt (∑ i, (xyz_to_lab (matmulT rgb_pred m_rgb_to_xyz) white_xyz i
    - xyz_to_lab (matmulT rgb_ref m_rgb_to_xyz) white_xyz i) ^ 2)

/-- Claim C8: for every RGB triple, RGB→XYZ matrix, and white point, the
color-difference metric on identical predicted and reference inputs is
exactly zero. -/
theorem delta_e_self (x : Fin 3 → ℝ) (M : Fin 3 → Fin 3 → ℝ) (w : Fin 3 → ℝ) :
    delta_e x x M w = 0 := by
  unfold delta_e
  simp

/-- Claim C10: in the real-valued embedding `xyz_to_lab` is total; every
whitepoint-scaled component not exceeding `(6/29)³` — in particular every
negative component — takes the linear branch; on the cube-root branch the
argument is positive and the power is applied to the non-negative base
`|t|`; and `delta_e` is non-negative on all inputs. -/
theorem xyz_to_lab_total :
    (∀ t : ℝ, t ≤ d_cb → lab_f t = t / (3 * d_sq) + 4 / 29) ∧
    (∀ t : ℝ, t < 0 → lab_f t = t / (3 * d_sq) + 4 / 29) ∧
    (∀ t : ℝ, d_cb < t → lab_f t = |t| ^ ((1 : ℝ) / 3)) ∧
    (∀ (p r : Fin 3 → ℝ) (M : Fin 3 → Fin 3 → ℝ) (w : Fin 3 → ℝ),
      0 ≤ delta_e p r M w) := by
  have hdcb : (0 : ℝ) < d_cb := by norm_num [d_cb, delta]
  refine ⟨?_, ?_, ?_, ?_⟩
  · intro t ht
    rw [lab_f, if_neg (by linarith)]
  · intro t ht
    rw [lab_f, if_neg (by linarith)]
  · intro t ht
    have ht0 : 0 < t := lt_trans hdcb ht
    rw [lab_f, if_pos ht, signed_cbrt, Real.sign_of_pos ht0, one_mul]
  · intro p r M w
    exact Real.sqrt_nonneg _

/-- Witness for C10 at a negative scaled component. -/
theorem xyz_to_lab_total_witness :
    lab_f (-1) = (-1) / (3 * d_sq) + 4 / 29 :=
  xyz_to_lab_total.2.1 (-1) (by norm_num)

end RgbToSpec
